import Mathlib

/-!
# Verification of the dispatch-and-caching core of `thunder/common.py`

This file gives a shallow embedding of the caching, tracing-dispatch and
module-adapter machinery of `thunder/common.py` and proves the properties
claimed in the specification about it.

Conventions of the embedding:
* Python values that can appear as call arguments are modelled by `PyVal`.
  A torch tensor keeps its metadata (shape, device, dtype, requires_grad)
  together with its numeric contents (`data`), so that statements about
  "contents do not influence the fingerprint" are meaningful.
* `_make_subkey_for` in the source returns a pair whose first component is a
  truthiness-checked flag (`True`, `False`, or — in the sequence branch —
  `None`) and whose second component is the sub-key.  The three return shapes
  `(True, key)`, `(False, None)` and `(None, False)` are modelled by the
  three constructors of `SubkeyRet`.
* Caches (Python dicts) are modelled as association lists with
  replace-or-append insertion.
* `time.time_ns()` is modelled by a monotone counter (`World.clock`).
-/

set_option autoImplicit false

namespace ThunderCommon

/-- The Python values relevant to `_make_subkey_for` / `tree_flatten`:
torch tensors (with metadata and numeric contents), NumPy arrays, strings,
ordered sequences (list/tuple), unhandled collections such as dicts,
hashable scalars tagged with their Python type, and non-hashable objects. -/
inductive PyVal where
  | tensor (shape : List Nat) (device : String) (dtype : String)
      (requiresGrad : Bool) (data : List Int)
  | ndarray (data : List Int)
  | str (s : String)
  | seq (xs : List PyVal)
  | dict (xs : List (String × PyVal))
  | hashable (ty : String) (v : Int)
  | nonHashable (id : Nat)

/-- The hashable sub-keys produced by `_make_subkey_for` and `kwarg_helper`:
`(torch.Tensor, shape, device, dtype, requires_grad)`, `(str, s)`,
an element-wise tuple for sequences, `(type(x), x)` for hashable scalars,
and the `(key_key, _key_value_separator, value_key)` triple for kwargs. -/
inductive SubKey where
  | tensorKey (shape : List Nat) (device : String) (dtype : String) (rg : Bool)
  | strKey (s : String)
  | seqKey (ks : List SubKey)
  | hashKey (ty : String) (v : Int)
  | kwPair (k v : SubKey)

mutual

/-- Structural equality of sub-keys, mirroring Python tuple equality, used
as the dict-key equality of the cache.  Its agreement with propositional
equality is proved below (`subkey_beq_iff`). -/
def SubKey.beq : SubKey → SubKey → Bool
  | .tensorKey s d t r, .tensorKey s' d' t' r' =>
      s == s' && d == d' && t == t' && r == r'
  | .strKey s, .strKey s' => s == s'
  | .seqKey ks, .seqKey ks' => SubKey.beqList ks ks'
  | .hashKey t v, .hashKey t' v' => t == t' && v == v'
  | .kwPair k v, .kwPair k' v' => SubKey.beq k k' && SubKey.beq v v'
  | _, _ => false

/-- Elementwise equality of lists of sub-keys (Python tuple equality). -/
def SubKey.beqList : List SubKey → List SubKey → Bool
  | [], [] => true
  | k :: ks, k' :: ks' => SubKey.beq k k' && SubKey.beqList ks ks'
  | _, _ => false

end

/-- The possible return values of `_make_subkey_for`: `(True, key)` when a
sub-key was produced, `(False, None)` for values with no fingerprint rule,
and `(None, False)` (the swapped pair returned from inside the sequence
loop) when a sequence element was indeterminate.  Only `ok` is truthy in
the first component. -/
inductive SubkeyRet where
  | ok (k : SubKey)
  | notHashable
  | seqFail

mutual

/-- Embeds `_make_subkey_for` (common.py lines 336-364): torch tensors map to
their metadata tuple, NumPy arrays / unhandled collections / non-hashable
objects have no rule, strings are special-cased before the `Sequence`
branch, and sequences recurse element-wise. -/
def _make_subkey_for (x : PyVal) : SubkeyRet :=
  match x with
  | .tensor shape device dtype rg _ => .ok (.tensorKey shape device dtype rg)
  | .ndarray _ => .notHashable
  | .str s => .ok (.strKey s)
  | .seq xs =>
    match subkeysOf xs with
    | some ks => .ok (.seqKey ks)
    | none => .seqFail
  | .dict _ => .notHashable
  | .hashable ty v => .ok (.hashKey ty v)
  | .nonHashable _ => .notHashable

/-- The elementwise sub-key loop shared by the `Sequence` branch of
`_make_subkey_for` and the args loop of `_make_cache_key`: stops at the
first element whose sub-key result is not truthy. -/
def subkeysOf (xs : List PyVal) : Option (List SubKey) :=
  match xs with
  | [] => some []
  | v :: vs =>
    match _make_subkey_for v with
    | .ok k =>
      match subkeysOf vs with
      | some ks => some (k :: ks)
      | none => none
    | _ => none

end

/-- Embeds `kwarg_helper` inside `_make_cache_key` (lines 385-389): the pair
is hashable iff both the key and the value are, and the sub-key is the
`(key_key, separator, value_key)` triple. -/
def kwarg_helper (k v : PyVal) : SubkeyRet :=
  match _make_subkey_for k, _make_subkey_for v with
  | .ok kk, .ok vk => .ok (.kwPair kk vk)
  | _, _ => .notHashable

/-- The kwargs loop of `_make_cache_key` (lines 391-397), over the insertion
order of the keyword mapping. -/
def kwargSubkeysOf (kwargs : List (String × PyVal)) : Option (List SubKey) :=
  match kwargs with
  | [] => some []
  | (k, v) :: rest =>
    match kwarg_helper (.str k) v with
    | .ok sk =>
      match kwargSubkeysOf rest with
      | some ks => some (sk :: ks)
      | none => none
    | _ => none

/-- Embeds `_make_cache_key` (lines 373-399): the args portion of the key
followed by the kwargs portion; `None` as soon as any element is not
hashable. -/
def _make_cache_key (args : List PyVal) (kwargs : List (String × PyVal)) :
    Option (List SubKey) :=
  match subkeysOf args with
  | none => none
  | some aks =>
    match kwargSubkeysOf kwargs with
    | none => none
    | some kks => some (aks ++ kks)

/-- Compiled executables are identified by opaque ids. -/
abbrev Fn := Nat

/-- A cache entry holds the executable and the trace sequence (which is
`None` for entries stored by the autograd path). -/
abbrev CacheEntry := Fn × Option (List Nat)

/-- The cache dict of `CompileStats`, keyed by cache keys. -/
abbrev Cache := List (List SubKey × CacheEntry)

/-- Dict lookup, with Python tuple equality on keys. -/
def cacheLookup (cache : Cache) (k : List SubKey) : Option CacheEntry :=
  match cache with
  | [] => none
  | (k', e) :: rest => if SubKey.beqList k' k then some e else cacheLookup rest k

/-- Dict assignment `cache[key] = e`: replaces the entry when the key is
present, appends it otherwise. -/
def cacheInsert (cache : Cache) (k : List SubKey) (e : CacheEntry) : Cache :=
  match cache with
  | [] => [(k, e)]
  | (k', e') :: rest =>
    if SubKey.beqList k' k then (k', e) :: rest
    else (k', e') :: cacheInsert rest k e

/-- Embeds `cache_put` (lines 403-410): returns whether the entry was stored
together with the resulting cache. -/
def cache_put (cache : Cache) (fn : Fn) (traces : Option (List Nat))
    (args : List PyVal) (kwargs : List (String × PyVal)) : Bool × Cache :=
  match _make_cache_key args kwargs with
  | none => (false, cache)
  | some k => (true, cacheInsert cache k (fn, traces))

/-- Embeds `cache_get` (lines 413-415): `(None, None)` on a miss or an
indeterminate key. -/
def cache_get (cache : Cache) (args : List PyVal)
    (kwargs : List (String × PyVal)) : Option Fn × Option (List Nat) :=
  match _make_cache_key args kwargs with
  | none => (none, none)
  | some k =>
    match cacheLookup cache k with
    | some (f, t) => (some f, t)
    | none => (none, none)

/-- The cache-mode enumeration (common.py lines 36-39). -/
inductive CACHE_MODES where
  | ALWAYS_TRACE
  | FIXED
  | DYNAMIC_STRIDES
  deriving DecidableEq

/-- The fields of `CompileData` that the dispatcher `_fn` consults.  The
processed function itself is opaque; its behaviour under tracing is a
separate parameter of the dispatch model. -/
structure CompileData where
  cache_mode : CACHE_MODES
  num_constant_args : Nat
  disable_torch_autograd_support : Bool
  langctx : Option Nat

/-- The mutable statistics object (`CompileStats`, lines 64-89), restricted
to the fields the dispatcher reads or writes.  Timestamps are `Int` so the
`-1` "unset" sentinel is representable. -/
structure CompileStats where
  last_executed : Option Fn
  last_traces : Option (List Nat)
  last_trace_host_start : Int
  last_trace_host_stop : Int
  last_trace_cache_start : Int
  last_trace_cache_stop : Int
  last_trace_tracing_start : Int
  last_trace_tracing_stop : Int
  last_trace_host_execution_start : Int
  last_trace_host_execution_stop : Int
  cache : Cache
  calls : Nat
  cache_hits : Nat
  cache_misses : Nat

/-- The process-wide execution contexts: the current language context and
the current trace context (contextvars). -/
structure TraceEnv where
  lang : Option Nat
  trc : Option Nat

/-- State owned by the tracing machinery: the execution contexts, a supply
of fresh trace ids, and a count of `TraceCtx` objects created so far. -/
structure TraceWorld where
  env : TraceEnv
  nextTraceId : Nat
  tracesBuilt : Nat

/-- The full mutable state a call of the compiled function runs in:
the stats object, the tracing state, the `time.time_ns` clock (monotone
counter) and a supply of fresh executable ids. -/
structure World where
  cs : CompileStats
  tw : TraceWorld
  clock : Nat
  nextFnId : Nat

/-- Embeds `time.time_ns()`: returns the current clock value and advances it. -/
def timeNs (w : World) : Int × World :=
  ((w.clock : Int), { w with clock := w.clock + 1 })

/-- Errors a call can surface: the `NotImplementedError` raised by the
inlined-transforms check, or an exception raised by the traced callable. -/
inductive Err where
  | notImplemented
  | userErr (n : Nat)

/-- What `trace()`'s inner function produces: a fresh `TraceCtx` (identified
by its id) or, for inlined invocations, the traced callable's result. -/
inductive TraceOrRes where
  | trc (id : Nat)
  | inlined

/-- Embeds `get_langctx()`: the ambient language context (with a default). -/
def getLangctx (env : TraceEnv) : Nat :=
  env.lang.getD 0

/-- Embeds the inner function of `trace` (common.py lines 444-510).
`langctxArg` is the resolved `langctx_`; `fnBeh` is the behaviour of the
traced callable (`.ok ()` when it returns, `.error e` when it raises).
The `try`/`finally` is modelled by performing the context resets on every
branch: the language-context token is always reset, and the trace-context
token is reset whenever it was set (the non-inlined branch). -/
def traceRun (langctxArg : Nat) (inline_trace : Bool) (fnBeh : Except Err Unit)
    (tw : TraceWorld) : Except Err TraceOrRes × TraceWorld :=
  -- langctx_tok = set_langctx(langctx_)
  let langctx_tok := tw.env.lang
  let env1 : TraceEnv := { tw.env with lang := some langctxArg }
  let current_trace := env1.trc
  if current_trace.isSome && inline_trace then
    -- return fn(*args, **kwargs), unwinding through `finally`
    let envF : TraceEnv := { env1 with lang := langctx_tok }
    match fnBeh with
    | .error e => (.error e, { tw with env := envF })
    | .ok _ => (.ok .inlined, { tw with env := envF })
  else
    -- trace = TraceCtx(fn); tracectx_tok = set_tracectx(trace)
    let tid := tw.nextTraceId
    let tracectx_tok := env1.trc
    let env2 : TraceEnv := { env1 with trc := some tid }
    let tw2 : TraceWorld :=
      { env := env2, nextTraceId := tw.nextTraceId + 1,
        tracesBuilt := tw.tracesBuilt + 1 }
    -- unpack inputs, run fn, seal the trace (dce); `finally` resets both
    let envF : TraceEnv := { lang := langctx_tok, trc := tracectx_tok }
    match fnBeh with
    | .error e => (.error e, { tw2 with env := envF })
    | .ok _ => (.ok (.trc tid), { tw2 with env := envF })

/-- What a call of the compiled function returns: either the result of
executing an executable on the call's args and kwargs, or the (proxied)
result of an inlined invocation. -/
inductive Outcome where
  | ran (f : Fn) (args : List PyVal) (kwargs : List (String × PyVal))
  | inlinedResult

mutual

/-- Embeds `tree_flatten` restricted to what lines 609-611 need: the flat list of
leaves of a pytree built from sequences and dicts. -/
def pyFlatten (x : PyVal) : List PyVal :=
  match x with
  | .seq xs => pyFlattenList xs
  | .dict xs => pyFlattenKVs xs
  | v => [v]

/-- Flattens a list of pytrees. -/
def pyFlattenList (xs : List PyVal) : List PyVal :=
  match xs with
  | [] => []
  | x :: rest => pyFlatten x ++ pyFlattenList rest

/-- Flattens the values of a string-keyed mapping of pytrees. -/
def pyFlattenKVs (xs : List (String × PyVal)) : List PyVal :=
  match xs with
  | [] => []
  | (_, v) :: rest => pyFlatten v ++ pyFlattenKVs rest

end

/-- Lines 609-611: whether any flattened argument is a tensor with
`requires_grad` set. -/
def anyRequiresGrad (args : List PyVal) (kwargs : List (String × PyVal)) : Bool :=
  (pyFlattenList args ++ pyFlattenKVs kwargs).any fun x =>
    match x with
    | .tensor _ _ _ rg _ => rg
    | _ => false

/-- Draws `n` fresh trace ids from the tracing state. -/
def drawTraceIds (n : Nat) (w : World) : List Nat × World :=
  ((List.range n).map (w.tw.nextTraceId + ·),
   { w with tw := { w.tw with nextTraceId := w.tw.nextTraceId + n } })

/-- Lines 573-578 of `_fn`: record the host start timestamp, bump the call
counter and record the cache-phase start timestamp. -/
def startCall (w : World) : World :=
  let (t0, wa) := timeNs w
  let wb : World :=
    { wa with cs := { wa.cs with last_trace_host_start := t0,
                                 calls := wa.cs.calls + 1 } }
  let (t1, wc) := timeNs wb
  { wc with cs := { wc.cs with last_trace_cache_start := t1 } }

/-- Lines 579-590: the `FIXED`-mode hit path, which runs `cs.last_executed`
directly on the full args and kwargs. -/
def fixedHitPath (f : Fn) (args : List PyVal) (kwargs : List (String × PyVal))
    (w : World) : Except Err Outcome × World :=
  let w1 : World := { w with cs := { w.cs with cache_hits := w.cs.cache_hits + 1 } }
  let (t, w2) := timeNs w1
  let w3 : World :=
    { w2 with cs := { w2.cs with last_trace_cache_stop := t,
                                 last_trace_tracing_start := -1,
                                 last_trace_tracing_stop := -1 } }
  let (te, w4) := timeNs w3
  let w5 : World := { w4 with cs := { w4.cs with last_trace_host_execution_start := te } }
  let (ts, w6) := timeNs w5
  let w7 : World :=
    { w6 with cs := { w6.cs with last_trace_host_execution_stop := ts,
                                 last_trace_host_stop := ts } }
  (.ok (.ran f args kwargs), w7)

/-- Lines 593-604: the `DYNAMIC_STRIDES` hit path, which also records the
retrieved executable as `cs.last_executed`. -/
def dynamicHitPath (c : Fn) (args : List PyVal) (kwargs : List (String × PyVal))
    (w : World) : Except Err Outcome × World :=
  let w1 : World :=
    { w with cs := { w.cs with cache_hits := w.cs.cache_hits + 1,
                               last_executed := some c } }
  let (t, w2) := timeNs w1
  let w3 : World :=
    { w2 with cs := { w2.cs with last_trace_cache_stop := t,
                                 last_trace_tracing_start := -1,
                                 last_trace_tracing_stop := -1 } }
  let (te, w4) := timeNs w3
  let w5 : World := { w4 with cs := { w4.cs with last_trace_host_execution_start := te } }
  let (ts, w6) := timeNs w5
  let w7 : World :=
    { w6 with cs := { w6.cs with last_trace_host_execution_stop := ts,
                                 last_trace_host_stop := ts } }
  (.ok (.ran c args kwargs), w7)

/-- Lines 612-633: the autograd branch.  `thunder_backward` and the
differentiable executable it wraps are external collaborators; the branch
is modelled as drawing a fresh executable, running it, recording it as
`cs.last_executed`, and (in `DYNAMIC_STRIDES` mode) storing it in the cache
with no trace sequence. -/
def autogradPath (cd : CompileData) (args : List PyVal)
    (kwargs : List (String × PyVal)) (w : World) : Except Err Outcome × World :=
  let (te, w1) := timeNs w
  let w2 : World := { w1 with cs := { w1.cs with last_trace_host_execution_start := te } }
  let c := w2.nextFnId
  let w3 : World := { w2 with nextFnId := w2.nextFnId + 1 }
  let (ts, w4) := timeNs w3
  let w5 : World :=
    { w4 with cs := { w4.cs with last_trace_host_execution_stop := ts,
                                 last_executed := some c } }
  let w6 : World :=
    if cd.cache_mode = CACHE_MODES.DYNAMIC_STRIDES then
      { w5 with cs := { w5.cs with cache :=
          (cache_put w5.cs.cache c none (args.drop cd.num_constant_args) kwargs).2 } }
    else w5
  let (th, w7) := timeNs w6
  let w8 : World := { w7 with cs := { w7.cs with last_trace_host_stop := th } }
  (.ok (.ran c args kwargs), w8)

/-- Lines 644-693: trace acquisition and the non-autograd continuation.
`pfnFail` is the behaviour of the processed function under tracing
(`none` = returns, `some n` = raises exception `n`). -/
def tracedPath (cd : CompileData) (transforms postTransforms : Nat)
    (pfnFail : Option Nat) (args : List PyVal) (kwargs : List (String × PyVal))
    (w : World) : Except Err Outcome × World :=
  let (tt, w1) := timeNs w
  let w2 : World := { w1 with cs := { w1.cs with last_trace_tracing_start := tt } }
  let fnBeh : Except Err Unit :=
    match pfnFail with
    | some n => .error (.userErr n)
    | none => .ok ()
  let langctxArg := cd.langctx.getD (getLangctx w2.tw.env)
  let (r, tw') := traceRun langctxArg true fnBeh w2.tw
  let w3 : World := { w2 with tw := tw' }
  match r with
  | .error e => (.error e, w3)
  | .ok trcOrRes =>
    let (tt2, w4) := timeNs w3
    let w5 : World := { w4 with cs := { w4.cs with last_trace_tracing_stop := tt2 } }
    let current_trace := w5.tw.env.trc
    if current_trace.isSome && decide (transforms ≠ 0) then
      (.error .notImplemented, w5)
    else if current_trace.isSome then
      (.ok .inlinedResult, w5)
    else
      match trcOrRes with
      | .inlined => (.ok .inlinedResult, w5)
      | .trc tid =>
        -- transforms each extend the trace sequence
        let (tids, w6) := drawTraceIds transforms w5
        let (te, w7) := timeNs w6
        let w8 : World := { w7 with cs := { w7.cs with last_trace_host_execution_start := te } }
        -- _execute_trace: lowering pipeline + post-optimization transforms
        let c := w8.nextFnId
        let w9 : World := { w8 with nextFnId := w8.nextFnId + 1 }
        let (etids, w10) := drawTraceIds (1 + postTransforms) w9
        let (ts, w11) := timeNs w10
        let traces := tid :: tids ++ etids
        let w12 : World :=
          { w11 with cs := { w11.cs with last_trace_host_execution_stop := ts,
                                         last_traces := some traces,
                                         last_executed := some c } }
        let w13 : World :=
          if cd.cache_mode = CACHE_MODES.DYNAMIC_STRIDES then
            { w12 with cs := { w12.cs with cache :=
                (cache_put w12.cs.cache c (some traces)
                  (args.drop cd.num_constant_args) kwargs).2 } }
          else w12
        let (th, w14) := timeNs w13
        let w15 : World := { w14 with cs := { w14.cs with last_trace_host_stop := th } }
        (.ok (.ran c args kwargs), w15)

/-- Lines 605-606: bump the miss counter and close the cache phase. -/
def missPre (w : World) : World :=
  let w1 : World := { w with cs := { w.cs with cache_misses := w.cs.cache_misses + 1 } }
  let (t, w2) := timeNs w1
  { w2 with cs := { w2.cs with last_trace_cache_stop := t } }

/-- Lines 605-693: the shared miss continuation — bump the miss counter,
close the cache phase, then dispatch to the autograd branch or to trace
acquisition. -/
def missPath (cd : CompileData) (transforms postTransforms : Nat)
    (pfnFail : Option Nat) (args : List PyVal) (kwargs : List (String × PyVal))
    (w : World) : Except Err Outcome × World :=
  if !cd.disable_torch_autograd_support && anyRequiresGrad args kwargs then
    autogradPath cd args kwargs (missPre w)
  else
    tracedPath cd transforms postTransforms pfnFail args kwargs (missPre w)

/-- Embeds the dispatcher `_fn` of `_create_callable` (lines 572-693). -/
def _fn (cd : CompileData) (transforms postTransforms : Nat)
    (pfnFail : Option Nat) (args : List PyVal) (kwargs : List (String × PyVal))
    (w : World) : Except Err Outcome × World :=
  let w0 := startCall w
  match cd.cache_mode, w0.cs.last_executed with
  | .FIXED, some f => fixedHitPath f args kwargs w0
  | _, _ =>
    let hit : Option Fn :=
      match cd.cache_mode with
      | .DYNAMIC_STRIDES =>
        (cache_get w0.cs.cache (args.drop cd.num_constant_args) kwargs).1
      | _ => none
    match hit with
    | some c => dynamicHitPath c args kwargs w0
    | none => missPath cd transforms postTransforms pfnFail args kwargs w0

mutual

/-- Agreement of two values in all shape-metadata fields, for values built
only from tensor-like / scalar / string / sequence constructors: tensors
compare by (shape, device, dtype, requires_grad) and never by contents. -/
def shapeMetaEq (a b : PyVal) : Bool :=
  match a, b with
  | .tensor s d t r _, .tensor s' d' t' r' _ =>
      s == s' && d == d' && t == t' && r == r'
  | .str x, .str y => x == y
  | .hashable t v, .hashable t' v' => t == t' && v == v'
  | .seq xs, .seq ys => shapeMetaEqList xs ys
  | _, _ => false

/-- Elementwise `shapeMetaEq`. -/
def shapeMetaEqList (xs ys : List PyVal) : Bool :=
  match xs, ys with
  | [], [] => true
  | x :: xs', y :: ys' => shapeMetaEq x y && shapeMetaEqList xs' ys'
  | _, _ => false

end

/-- Pointwise `shapeMetaEq` on keyword arguments: same names in the same
order with shape-metadata-equal values. -/
def kwargsMetaEq (xs ys : List (String × PyVal)) : Bool :=
  match xs, ys with
  | [], [] => true
  | (k, v) :: xs', (k', v') :: ys' =>
      k == k' && shapeMetaEq v v' && kwargsMetaEq xs' ys'
  | _, _ => false

/-- The top-level argument kinds for which `_make_subkey_for` has no rule:
NumPy ndarrays, unhandled container types and non-hashable objects. -/
def noFingerprintRule (x : PyVal) : Bool :=
  match x with
  | .ndarray _ => true
  | .dict _ => true
  | .nonHashable _ => true
  | _ => false

/-!
## The module adapter (`ThunderOptimizedModule`, lines 284-326)
-/

/-- A Python object graph for attribute traversal: a leaf value or an
object with named attributes. -/
inductive Obj where
  | leaf (v : PyVal)
  | node (attrs : List (String × Obj))

/-- Embeds `getattr` on an attribute list. -/
def lookupAttr (attrs : List (String × Obj)) (name : String) : Option Obj :=
  match attrs with
  | [] => none
  | (n, o) :: rest => if n = name then some o else lookupAttr rest name

/-- Embeds `setattr` on an attribute list: replaces the binding, or adds it. -/
def setAttrList (attrs : List (String × Obj)) (name : String) (o : Obj) :
    List (String × Obj) :=
  match attrs with
  | [] => [(name, o)]
  | (n, o') :: rest =>
    if n = name then (n, o) :: rest else (n, o') :: setAttrList rest name o

/-- Successive `getattr` along a dotted path. -/
def getDotted (m : Obj) (path : List String) : Option Obj :=
  match m, path with
  | m, [] => some m
  | .node attrs, p :: rest =>
    match lookupAttr attrs p with
    | some sub => getDotted sub rest
    | none => none
  | .leaf _, _ :: _ => none

/-- Splitting a character list at `'.'` separators, accumulating the
current part in reverse. -/
def splitDots (s : List Char) (cur : List Char) : List String :=
  match s with
  | [] => [String.mk cur.reverse]
  | c :: rest =>
    if c = '.' then String.mk cur.reverse :: splitDots rest []
    else splitDots rest (c :: cur)

/-- Embeds `k.split(".")` of line 321: the dotted attribute path of a name. -/
def pathOf (k : String) : List String :=
  splitDots k.data []

/-- Lines 320-324: `getattr` along `parts[:-1]`, then `setattr` of the leaf
attribute; `none` models the `AttributeError` when traversal fails. -/
def setDotted (m : Obj) (path : List String) (v : PyVal) : Option Obj :=
  match m, path with
  | _, [] => none
  | .node attrs, [p] => some (.node (setAttrList attrs p (.leaf v)))
  | .node attrs, p :: rest =>
    match lookupAttr attrs p with
    | some sub =>
      match setDotted sub rest v with
      | some sub' => some (.node (setAttrList attrs p sub'))
      | none => none
    | none => none
  | .leaf _, _ :: _ => none

/-- Errors of the module adapter's write-back loop. -/
inductive TomErr where
  | unpackErr
  | mismatch
  | attrErr
  | indexErr

/-- The state of a `ThunderOptimizedModule`: the wrapped model's object
graph, the implicit parameter values prepended to each call, the declared
extra-return names and their parameter indices. -/
structure TOM where
  model : Obj
  additional_param_values : List PyVal
  additional_return_names : List String
  additional_return_param_idxes : List Nat

/-- Line 310: `all_args = (*self._additional_param_values, *args)`. -/
def tomAllArgs (tom : TOM) (args : List PyVal) : List PyVal :=
  tom.additional_param_values ++ args

/-- The write-back loop of lines 317-325: for each (name, value, index),
write the value to the model's dotted attribute path and into the implicit
parameter slot. -/
def applyReturns (m : Obj) (vals : List PyVal)
    (ts : List ((String × PyVal) × Nat)) : Except TomErr (Obj × List PyVal) :=
  match ts with
  | [] => .ok (m, vals)
  | ((k, v), idx) :: rest =>
    match setDotted m (pathOf k) v with
    | none => .error .attrErr
    | some m' =>
      if idx < vals.length then applyReturns m' (vals.set idx v) rest
      else .error .indexErr

/-- Embeds `ThunderOptimizedModule.__call__` (lines 309-326) given the
result `res` the compiled callable returned: when extra-return names are
declared, destructure the result, check the count, and run the write-back
loop over `zip(names, additional_returns, idxes)`. -/
def tomCall (tom : TOM) (res : PyVal) : Except TomErr (PyVal × TOM) :=
  match tom.additional_return_names with
  | [] => .ok (res, tom)
  | _ :: _ =>
    match res with
    | .seq (r :: rest) =>
      if tom.additional_return_names.length = rest.length then
        match applyReturns tom.model tom.additional_param_values
            ((tom.additional_return_names.zip rest).zip
              tom.additional_return_param_idxes) with
        | .ok (m', vals') =>
          .ok (r, { tom with model := m', additional_param_values := vals' })
        | .error e => .error e
      else .error .mismatch
    | _ => .error .unpackErr

/-!
## Soundness of the sub-key equality used as dict-key equality
-/

theorem subkey_beqList_iff_of (ks ks' : List SubKey)
    (ih : ∀ a ∈ ks, ∀ b : SubKey, SubKey.beq a b = true ↔ a = b) :
    SubKey.beqList ks ks' = true ↔ ks = ks' := by
  induction ks generalizing ks' with
  | nil => cases ks' <;> simp [SubKey.beqList]
  | cons x xs ihl =>
    cases ks' with
    | nil => simp [SubKey.beqList]
    | cons y ys =>
      have hx := ih x (by simp) y
      have hxs := ihl ys (fun a ha b => ih a (List.mem_cons_of_mem _ ha) b)
      simp [SubKey.beqList, hx, hxs]

theorem subkey_beq_iff_le :
    ∀ (n : Nat) (a b : SubKey), sizeOf a ≤ n →
      (SubKey.beq a b = true ↔ a = b) := by
  intro n
  induction n with
  | zero =>
    intro a b ha
    exact absurd ha (by cases a <;> simp)
  | succ n ih =>
    intro a b ha
    cases a with
    | tensorKey s d t r => cases b <;> simp [SubKey.beq, and_assoc]
    | strKey s => cases b <;> simp [SubKey.beq]
    | hashKey t v => cases b <;> simp [SubKey.beq]
    | seqKey ks =>
      cases b <;> simp [SubKey.beq]
      case seqKey ks' =>
        apply subkey_beqList_iff_of
        intro a hmem b
        apply ih
        have h1 : sizeOf a < sizeOf ks := List.sizeOf_lt_of_mem hmem
        have h2 : 1 + sizeOf ks ≤ n + 1 := by simpa using ha
        omega
    | kwPair k v =>
      cases b <;> simp [SubKey.beq]
      case kwPair k' v' =>
        have hs : 1 + sizeOf k + sizeOf v ≤ n + 1 := by simpa using ha
        have hk := ih k k' (by omega)
        have hv := ih v v' (by omega)
        simp [hk, hv]

theorem subkey_beq_iff (a b : SubKey) : SubKey.beq a b = true ↔ a = b :=
  subkey_beq_iff_le (sizeOf a) a b le_rfl

theorem subkey_beqList_iff (ks ks' : List SubKey) :
    SubKey.beqList ks ks' = true ↔ ks = ks' :=
  subkey_beqList_iff_of ks ks' (fun a _ b => subkey_beq_iff a b)

theorem subkey_beqList_self (k : List SubKey) : SubKey.beqList k k = true :=
  (subkey_beqList_iff k k).mpr rfl

/-- Looking up the key just inserted retrieves the inserted entry. -/
theorem cacheLookup_cacheInsert_self (c : Cache) (k : List SubKey)
    (e : CacheEntry) : cacheLookup (cacheInsert c k e) k = some e := by
  induction c with
  | nil => simp [cacheInsert, cacheLookup, subkey_beqList_self]
  | cons p rest ih =>
    obtain ⟨k', e'⟩ := p
    by_cases h : SubKey.beqList k' k = true
    · simp [cacheInsert, cacheLookup, h]
    · simp only [cacheInsert, cacheLookup, h]
      simpa [h] using ih

/-!
## Indeterminate fingerprints
-/

/-- Values with no fingerprint rule produce the `(False, None)` result. -/
theorem subkey_of_noRule (x : PyVal) (h : noFingerprintRule x = true) :
    _make_subkey_for x = .notHashable := by
  cases x <;> simp_all [noFingerprintRule, _make_subkey_for]

/-- The elementwise loop is indeterminate as soon as one element is. -/
theorem subkeysOf_none_of_bad (args : List PyVal) (x : PyVal) (hx : x ∈ args)
    (h : ∀ k, _make_subkey_for x ≠ .ok k) : subkeysOf args = none := by
  induction args with
  | nil => cases hx
  | cons a rest ih =>
    rcases List.mem_cons.mp hx with rfl | hmem
    · cases hsk : _make_subkey_for x with
      | ok k => exact absurd hsk (h k)
      | notHashable => simp [subkeysOf, hsk]
      | seqFail => simp [subkeysOf, hsk]
    · cases hsk : _make_subkey_for a <;> simp [subkeysOf, hsk, ih hmem]

/-- The kwargs loop is indeterminate as soon as one value is. -/
theorem kwargSubkeysOf_none_of_bad (kwargs : List (String × PyVal))
    (k : String) (v : PyVal) (hkv : (k, v) ∈ kwargs)
    (h : ∀ sk, _make_subkey_for v ≠ .ok sk) : kwargSubkeysOf kwargs = none := by
  induction kwargs with
  | nil => cases hkv
  | cons p rest ih =>
    obtain ⟨k', v'⟩ := p
    rcases List.mem_cons.mp hkv with heq | hmem
    · obtain ⟨rfl, rfl⟩ := Prod.mk.injEq .. ▸ heq
      have hkh : kwarg_helper (.str k) v = .notHashable := by
        cases hsk : _make_subkey_for v with
        | ok sk => exact absurd hsk (h sk)
        | notHashable => simp [kwarg_helper, hsk, _make_subkey_for]
        | seqFail => simp [kwarg_helper, hsk, _make_subkey_for]
      simp [kwargSubkeysOf, hkh]
    · cases hkh : kwarg_helper (.str k') v' <;>
        simp [kwargSubkeysOf, hkh, ih hmem]

/-- An indeterminate args portion makes the whole key indeterminate. -/
theorem cache_key_none_of_args (args : List PyVal)
    (kwargs : List (String × PyVal)) (h : subkeysOf args = none) :
    _make_cache_key args kwargs = none := by
  simp [_make_cache_key, h]

/-- An indeterminate kwargs portion makes the whole key indeterminate. -/
theorem cache_key_none_of_kwargs (args : List PyVal)
    (kwargs : List (String × PyVal)) (h : kwargSubkeysOf kwargs = none) :
    _make_cache_key args kwargs = none := by
  cases ha : subkeysOf args <;> simp [_make_cache_key, ha, h]

/-- C2: an argument list containing at least one element with no fingerprint
rule (a NumPy ndarray, an unhandled container, or a non-hashable object) —
as a positional argument or as a keyword-argument value — makes
`_make_cache_key` return the indeterminate value `none`; `cache_get` on such
arguments reports a miss `(none, none)`, and `cache_put` reports not-stored
(`false`) and leaves the cache mapping unchanged, so no cache entry is ever
keyed by an indeterminate fingerprint. -/
theorem C2_indeterminate_fingerprint_disables_cache
    (args : List PyVal) (kwargs : List (String × PyVal))
    (cache : Cache) (f : Fn) (tr : Option (List Nat))
    (h : (∃ x ∈ args, noFingerprintRule x = true) ∨
         (∃ p ∈ kwargs, noFingerprintRule p.2 = true)) :
    _make_cache_key args kwargs = none ∧
    cache_get cache args kwargs = (none, none) ∧
    cache_put cache f tr args kwargs = (false, cache) := by
  have hkey : _make_cache_key args kwargs = none := by
    rcases h with ⟨x, hx, hrule⟩ | ⟨⟨k, v⟩, hkv, hrule⟩
    · refine cache_key_none_of_args args kwargs ?_
      exact subkeysOf_none_of_bad args x hx
        (fun k hk => by simp [subkey_of_noRule x hrule] at hk)
    · refine cache_key_none_of_kwargs args kwargs ?_
      exact kwargSubkeysOf_none_of_bad kwargs k v hkv
        (fun sk hsk => by simp [subkey_of_noRule v hrule] at hsk)
  refine ⟨hkey, ?_, ?_⟩
  · simp [cache_get, hkey]
  · simp [cache_put, hkey]

/-- Witness for C2 at a concrete input: a call `f(tensor, ndarray, x=3)`. -/
theorem C2_indeterminate_fingerprint_disables_cache_witness :
    ((∃ x ∈ [PyVal.tensor [2] "cpu" "f32" false [1, 2], PyVal.ndarray [3]],
        noFingerprintRule x = true) ∨
      (∃ p ∈ [("x", PyVal.hashable "int" 3)], noFingerprintRule p.2 = true)) ∧
    (_make_cache_key [PyVal.tensor [2] "cpu" "f32" false [1, 2], PyVal.ndarray [3]]
        [("x", PyVal.hashable "int" 3)] = none ∧
      cache_get [] [PyVal.tensor [2] "cpu" "f32" false [1, 2], PyVal.ndarray [3]]
        [("x", PyVal.hashable "int" 3)] = (none, none) ∧
      cache_put [] 7 none [PyVal.tensor [2] "cpu" "f32" false [1, 2], PyVal.ndarray [3]]
        [("x", PyVal.hashable "int" 3)] = (false, [])) :=
  ⟨Or.inl ⟨PyVal.ndarray [3], by simp, rfl⟩,
   C2_indeterminate_fingerprint_disables_cache _ _ [] 7 none
     (Or.inl ⟨PyVal.ndarray [3], by simp, rfl⟩)⟩

/-!
## Fingerprints depend only on shape metadata
-/

theorem subkeysOf_congr_of (xs ys : List PyVal)
    (ih : ∀ a ∈ xs, ∀ b, shapeMetaEq a b = true →
      _make_subkey_for a = _make_subkey_for b)
    (h : shapeMetaEqList xs ys = true) : subkeysOf xs = subkeysOf ys := by
  induction xs generalizing ys with
  | nil => cases ys <;> simp_all [shapeMetaEqList]
  | cons x xs' ihl =>
    cases ys with
    | nil => simp [shapeMetaEqList] at h
    | cons y ys' =>
      simp only [shapeMetaEqList, Bool.and_eq_true] at h
      obtain ⟨h1, h2⟩ := h
      have e1 := ih x (by simp) y h1
      have e2 := ihl ys' (fun a ha b => ih a (List.mem_cons_of_mem _ ha) b) h2
      simp [subkeysOf, e1, e2]

theorem subkey_congr_le :
    ∀ (n : Nat) (a b : PyVal), sizeOf a ≤ n → shapeMetaEq a b = true →
      _make_subkey_for a = _make_subkey_for b := by
  intro n
  induction n with
  | zero =>
    intro a b ha
    exact absurd ha (by cases a <;> simp)
  | succ n ih =>
    intro a b ha h
    cases a with
    | tensor s d t r dat =>
      cases b <;> simp [shapeMetaEq] at h
      case tensor s' d' t' r' dat' =>
        obtain ⟨⟨⟨rfl, rfl⟩, rfl⟩, rfl⟩ := h
        simp [_make_subkey_for]
    | ndarray dat => cases b <;> simp [shapeMetaEq] at h
    | str s =>
      cases b <;> simp [shapeMetaEq] at h
      case str s' => subst h; rfl
    | seq xs =>
      cases b <;> simp [shapeMetaEq] at h
      case seq ys =>
        have hsub : subkeysOf xs = subkeysOf ys := by
          refine subkeysOf_congr_of xs ys (fun a hmem b hab => ?_) h
          refine ih a b ?_ hab
          have h1 : sizeOf a < sizeOf xs := List.sizeOf_lt_of_mem hmem
          have h2 : 1 + sizeOf xs ≤ n + 1 := by simpa using ha
          omega
        simp [_make_subkey_for, hsub]
    | dict xs => cases b <;> simp [shapeMetaEq] at h
    | hashable t v =>
      cases b <;> simp [shapeMetaEq] at h
      case hashable t' v' =>
        obtain ⟨rfl, rfl⟩ := h
        rfl
    | nonHashable i => cases b <;> simp [shapeMetaEq] at h

theorem subkey_congr (a b : PyVal) (h : shapeMetaEq a b = true) :
    _make_subkey_for a = _make_subkey_for b :=
  subkey_congr_le (sizeOf a) a b le_rfl h

theorem kwargSubkeysOf_congr (xs ys : List (String × PyVal))
    (h : kwargsMetaEq xs ys = true) : kwargSubkeysOf xs = kwargSubkeysOf ys := by
  induction xs generalizing ys with
  | nil => cases ys <;> simp_all [kwargsMetaEq]
  | cons p xs' ih =>
    obtain ⟨k, v⟩ := p
    cases ys with
    | nil => simp [kwargsMetaEq] at h
    | cons q ys' =>
      obtain ⟨k', v'⟩ := q
      simp only [kwargsMetaEq, Bool.and_eq_true, beq_iff_eq] at h
      obtain ⟨⟨rfl, hv⟩, hrest⟩ := h
      have e1 : kwarg_helper (.str k) v = kwarg_helper (.str k) v' := by
        simp [kwarg_helper, subkey_congr v v' hv]
      simp [kwargSubkeysOf, e1, ih ys' hrest]

/-- C3: a torch tensor's fingerprint sub-key is exactly
`(torch.Tensor, shape, device, dtype, requires_grad)` — independent of the
tensor's numeric contents — and consequently, for argument tuples built
only from tensor-like / scalar / string / sequence values, two calls whose
values agree in all shape-metadata fields produce equal fingerprints
regardless of numeric contents. -/
theorem C3_tensor_subkey_metadata_only :
    (∀ (shape : List Nat) (device dtype : String) (rg : Bool) (data : List Int),
      _make_subkey_for (.tensor shape device dtype rg data) =
        .ok (.tensorKey shape device dtype rg)) ∧
    (∀ (args args' : List PyVal) (kwargs kwargs' : List (String × PyVal)),
      shapeMetaEqList args args' = true → kwargsMetaEq kwargs kwargs' = true →
      _make_cache_key args kwargs = _make_cache_key args' kwargs') := by
  refine ⟨fun shape device dtype rg data => rfl, ?_⟩
  intro args args' kwargs kwargs' hargs hkwargs
  have h1 : subkeysOf args = subkeysOf args' :=
    subkeysOf_congr_of args args' (fun a _ b hab => subkey_congr a b hab) hargs
  have h2 := kwargSubkeysOf_congr kwargs kwargs' hkwargs
  simp [_make_cache_key, h1, h2]

/-- Witness for C3: two tensors with equal metadata but different contents
give equal cache keys. -/
theorem C3_tensor_subkey_metadata_only_witness :
    shapeMetaEqList [PyVal.tensor [2, 2] "cuda:0" "f32" true [1, 2, 3, 4]]
        [PyVal.tensor [2, 2] "cuda:0" "f32" true [5, 6, 7, 8]] = true ∧
    kwargsMetaEq [("x", PyVal.hashable "int" 1)] [("x", PyVal.hashable "int" 1)] = true ∧
    _make_cache_key [PyVal.tensor [2, 2] "cuda:0" "f32" true [1, 2, 3, 4]]
        [("x", PyVal.hashable "int" 1)] =
      _make_cache_key [PyVal.tensor [2, 2] "cuda:0" "f32" true [5, 6, 7, 8]]
        [("x", PyVal.hashable "int" 1)] :=
  ⟨rfl, rfl,
   C3_tensor_subkey_metadata_only.2 _ _ _ _ rfl rfl⟩

/-!
## Sequence sub-keys
-/

theorem seq_subkey_ok_iff (xs : List PyVal) (ks : List SubKey) :
    _make_subkey_for (.seq xs) = .ok (.seqKey ks) ↔ subkeysOf xs = some ks := by
  cases h : subkeysOf xs <;> simp [_make_subkey_for, h]

/-- C8: the sub-key of an ordered sequence is built element-wise by
recursion; any element without a truthy sub-key makes the whole sequence
indeterminate (the `(None, False)` result, and an indeterminate cache key
for any argument list containing the sequence); strings, despite being
sequences, get the atomic sub-key `(str, value)`. -/
theorem C8_sequence_elementwise_strings_atomic :
    (∀ (x : PyVal) (xs : List PyVal) (k : SubKey) (ks : List SubKey),
      _make_subkey_for x = .ok k →
      _make_subkey_for (.seq xs) = .ok (.seqKey ks) →
      _make_subkey_for (.seq (x :: xs)) = .ok (.seqKey (k :: ks))) ∧
    (∀ (xs : List PyVal) (x : PyVal), x ∈ xs →
      (∀ k, _make_subkey_for x ≠ .ok k) →
      _make_subkey_for (.seq xs) = .seqFail ∧
      ∀ (pre post : List PyVal) (kwargs : List (String × PyVal)),
        _make_cache_key (pre ++ .seq xs :: post) kwargs = none) ∧
    (∀ s : String, _make_subkey_for (.str s) = .ok (.strKey s)) := by
  refine ⟨?_, ?_, fun s => rfl⟩
  · intro x xs k ks h1 h2
    have hsub : subkeysOf xs = some ks := (seq_subkey_ok_iff xs ks).mp h2
    simp [_make_subkey_for, subkeysOf, h1, hsub]
  · intro xs x hmem hbad
    have hnone : subkeysOf xs = none := subkeysOf_none_of_bad xs x hmem hbad
    have hfail : _make_subkey_for (.seq xs) = .seqFail := by
      simp [_make_subkey_for, hnone]
    refine ⟨hfail, fun pre post kwargs => ?_⟩
    refine cache_key_none_of_args _ _ ?_
    refine subkeysOf_none_of_bad _ (.seq xs) (by simp) ?_
    intro k hk
    rw [hfail] at hk
    exact SubkeyRet.noConfusion hk

/-- Witness for C8 at concrete inputs: a two-string sequence, a sequence
containing an ndarray, and a plain string. -/
theorem C8_sequence_elementwise_strings_atomic_witness :
    _make_subkey_for (.str "a") = .ok (.strKey "a") ∧
    _make_subkey_for (.seq [.str "b"]) = .ok (.seqKey [.strKey "b"]) ∧
    _make_subkey_for (.seq [.str "a", .str "b"]) =
      .ok (.seqKey [.strKey "a", .strKey "b"]) ∧
    _make_subkey_for (.seq [PyVal.ndarray [1]]) = .seqFail ∧
    _make_cache_key [.seq [PyVal.ndarray [1]]] [] = none ∧
    _make_subkey_for (.str "xyz") = .ok (.strKey "xyz") := by
  have hbad : ∀ k, _make_subkey_for (PyVal.ndarray [1]) ≠ .ok k :=
    fun k hk => SubkeyRet.noConfusion hk
  have hpart := C8_sequence_elementwise_strings_atomic.2.1
    [PyVal.ndarray [1]] (PyVal.ndarray [1]) (by simp) hbad
  exact ⟨rfl, rfl,
    C8_sequence_elementwise_strings_atomic.1 (.str "a") [.str "b"]
      (.strKey "a") [.strKey "b"] rfl rfl,
    hpart.1, hpart.2 [] [] [],
    C8_sequence_elementwise_strings_atomic.2.2 "xyz"⟩

/-!
## Context restoration in the trace builder
-/

/-- C6: on every exit path of `trace()`'s inner function — normal return,
inlined early return, and exception — the language context (and, when one
was set, the trace context) is reset to its value before the call, and an
exception raised by the traced callable propagates unchanged. -/
theorem C6_trace_context_restoration (langctxArg : Nat) (inline_trace : Bool)
    (fnBeh : Except Err Unit) (tw : TraceWorld) :
    ((traceRun langctxArg inline_trace fnBeh tw).2.env = tw.env) ∧
    (∀ e : Err, (traceRun langctxArg inline_trace fnBeh tw).1 = .error e ↔
      fnBeh = .error e) := by
  obtain ⟨⟨lang, trc⟩, nid, tb⟩ := tw
  cases trc <;> cases inline_trace <;> cases fnBeh <;> simp [traceRun]

/-- Witness for C6: a concrete inlined invocation whose callable raises. -/
theorem C6_trace_context_restoration_witness :
    (traceRun 1 true (.error (.userErr 3)) ⟨⟨some 0, some 5⟩, 7, 2⟩).2.env =
      (⟨some 0, some 5⟩ : TraceEnv) ∧
    ((traceRun 1 true (.error (.userErr 3)) ⟨⟨some 0, some 5⟩, 7, 2⟩).1 =
        .error (.userErr 3) ↔
      (.error (.userErr 3) : Except Err Unit) = .error (.userErr 3)) :=
  ⟨(C6_trace_context_restoration 1 true (.error (.userErr 3))
      ⟨⟨some 0, some 5⟩, 7, 2⟩).1,
   (C6_trace_context_restoration 1 true (.error (.userErr 3))
      ⟨⟨some 0, some 5⟩, 7, 2⟩).2 (.userErr 3)⟩

/-!
## Dispatcher path lemmas
-/

@[simp] theorem startCall_cs_cache (w : World) :
    (startCall w).cs.cache = w.cs.cache := rfl

@[simp] theorem startCall_cs_last_executed (w : World) :
    (startCall w).cs.last_executed = w.cs.last_executed := rfl

@[simp] theorem startCall_cs_cache_hits (w : World) :
    (startCall w).cs.cache_hits = w.cs.cache_hits := rfl

@[simp] theorem startCall_cs_cache_misses (w : World) :
    (startCall w).cs.cache_misses = w.cs.cache_misses := rfl

@[simp] theorem startCall_tw (w : World) : (startCall w).tw = w.tw := rfl

@[simp] theorem startCall_nextFnId (w : World) :
    (startCall w).nextFnId = w.nextFnId := rfl

@[simp] theorem fixedHitPath_fst (f : Fn) (args : List PyVal)
    (kwargs : List (String × PyVal)) (w : World) :
    (fixedHitPath f args kwargs w).1 = .ok (.ran f args kwargs) := rfl

@[simp] theorem fixedHitPath_cache (f : Fn) (args : List PyVal)
    (kwargs : List (String × PyVal)) (w : World) :
    (fixedHitPath f args kwargs w).2.cs.cache = w.cs.cache := rfl

@[simp] theorem fixedHitPath_hits (f : Fn) (args : List PyVal)
    (kwargs : List (String × PyVal)) (w : World) :
    (fixedHitPath f args kwargs w).2.cs.cache_hits = w.cs.cache_hits + 1 := rfl

@[simp] theorem fixedHitPath_misses (f : Fn) (args : List PyVal)
    (kwargs : List (String × PyVal)) (w : World) :
    (fixedHitPath f args kwargs w).2.cs.cache_misses = w.cs.cache_misses := rfl

@[simp] theorem fixedHitPath_tracing_start (f : Fn) (args : List PyVal)
    (kwargs : List (String × PyVal)) (w : World) :
    (fixedHitPath f args kwargs w).2.cs.last_trace_tracing_start = -1 := rfl

@[simp] theorem fixedHitPath_tracing_stop (f : Fn) (args : List PyVal)
    (kwargs : List (String × PyVal)) (w : World) :
    (fixedHitPath f args kwargs w).2.cs.last_trace_tracing_stop = -1 := rfl

@[simp] theorem fixedHitPath_last_executed (f : Fn) (args : List PyVal)
    (kwargs : List (String × PyVal)) (w : World) :
    (fixedHitPath f args kwargs w).2.cs.last_executed = w.cs.last_executed := rfl

@[simp] theorem fixedHitPath_tw (f : Fn) (args : List PyVal)
    (kwargs : List (String × PyVal)) (w : World) :
    (fixedHitPath f args kwargs w).2.tw = w.tw := rfl

@[simp] theorem dynamicHitPath_fst (c : Fn) (args : List PyVal)
    (kwargs : List (String × PyVal)) (w : World) :
    (dynamicHitPath c args kwargs w).1 = .ok (.ran c args kwargs) := rfl

@[simp] theorem dynamicHitPath_cache (c : Fn) (args : List PyVal)
    (kwargs : List (String × PyVal)) (w : World) :
    (dynamicHitPath c args kwargs w).2.cs.cache = w.cs.cache := rfl

@[simp] theorem dynamicHitPath_hits (c : Fn) (args : List PyVal)
    (kwargs : List (String × PyVal)) (w : World) :
    (dynamicHitPath c args kwargs w).2.cs.cache_hits = w.cs.cache_hits + 1 := rfl

@[simp] theorem dynamicHitPath_misses (c : Fn) (args : List PyVal)
    (kwargs : List (String × PyVal)) (w : World) :
    (dynamicHitPath c args kwargs w).2.cs.cache_misses = w.cs.cache_misses := rfl

@[simp] theorem dynamicHitPath_tw (c : Fn) (args : List PyVal)
    (kwargs : List (String × PyVal)) (w : World) :
    (dynamicHitPath c args kwargs w).2.tw = w.tw := rfl

/-- C4: in `FIXED` mode with a recorded last-executed callable, a call runs
exactly that callable on the full args and kwargs, bumps the hit counter
(not the miss counter), sets the tracing-phase timestamps to the `-1`
sentinel, builds no trace, keeps the callable recorded, and leaves the
cache dict untouched — regardless of the arguments and of the cache's
contents, so the `DYNAMIC_STRIDES` lookup is never consulted. -/
theorem C4_fixed_mode_idempotence (cd : CompileData)
    (transforms postTransforms : Nat) (pfnFail : Option Nat)
    (args : List PyVal) (kwargs : List (String × PyVal)) (w : World) (f : Fn)
    (hmode : cd.cache_mode = .FIXED) (hle : w.cs.last_executed = some f) :
    (_fn cd transforms postTransforms pfnFail args kwargs w).1 =
      .ok (.ran f args kwargs) ∧
    (_fn cd transforms postTransforms pfnFail args kwargs w).2.cs.cache_hits =
      w.cs.cache_hits + 1 ∧
    (_fn cd transforms postTransforms pfnFail args kwargs w).2.cs.cache_misses =
      w.cs.cache_misses ∧
    (_fn cd transforms postTransforms pfnFail args kwargs w).2.cs.last_trace_tracing_start
      = -1 ∧
    (_fn cd transforms postTransforms pfnFail args kwargs w).2.cs.last_trace_tracing_stop
      = -1 ∧
    (_fn cd transforms postTransforms pfnFail args kwargs w).2.tw.tracesBuilt =
      w.tw.tracesBuilt ∧
    (_fn cd transforms postTransforms pfnFail args kwargs w).2.cs.last_executed =
      some f ∧
    (_fn cd transforms postTransforms pfnFail args kwargs w).2.cs.cache =
      w.cs.cache := by
  have h0 : (startCall w).cs.last_executed = some f := by simp [hle]
  simp [_fn, hmode, h0, hle]

/-- Witness for C4: a concrete `FIXED`-mode call on a world whose cache even
contains an entry for the argument fingerprint. -/
theorem C4_fixed_mode_idempotence_witness :
    (⟨.FIXED, 0, false, none⟩ : CompileData).cache_mode = .FIXED ∧
    (⟨⟨some 5, none, 0, 0, 0, 0, 0, 0, 0, 0,
        [([SubKey.hashKey "int" 3], (9, none))], 1, 0, 1⟩,
      ⟨⟨none, none⟩, 1, 1⟩, 10, 10⟩ : World).cs.last_executed = some 5 ∧
    (_fn ⟨.FIXED, 0, false, none⟩ 0 0 none [.hashable "int" 3] []
      ⟨⟨some 5, none, 0, 0, 0, 0, 0, 0, 0, 0,
          [([SubKey.hashKey "int" 3], (9, none))], 1, 0, 1⟩,
        ⟨⟨none, none⟩, 1, 1⟩, 10, 10⟩).1 =
      .ok (.ran 5 [.hashable "int" 3] []) := by
  refine ⟨rfl, rfl, ?_⟩
  exact (C4_fixed_mode_idempotence _ 0 0 none [.hashable "int" 3] [] _ 5
    rfl rfl).1

/-- C1: under `DYNAMIC_STRIDES`, after `cache_put` stores `(f, tr)` under
the fingerprint of a call's prefix-stripped args and kwargs, a later call
whose prefix-stripped args and kwargs have an equal fingerprint retrieves
the stored pair via `cache_get` and runs the stored executable, bumping
the hit counter, leaving the miss counter and the cache unchanged, and
building no new trace. -/
theorem C1_dynamic_cache_hit_bypasses_tracing
    (cd : CompileData) (transforms postTransforms : Nat) (pfnFail : Option Nat)
    (args1 args2 : List PyVal) (kwargs1 kwargs2 : List (String × PyVal))
    (cache0 : Cache) (f : Fn) (tr : Option (List Nat)) (w : World)
    (hmode : cd.cache_mode = .DYNAMIC_STRIDES)
    (hput : cache_put cache0 f tr (args1.drop cd.num_constant_args) kwargs1 =
      (true, w.cs.cache))
    (hkey : _make_cache_key (args2.drop cd.num_constant_args) kwargs2 =
      _make_cache_key (args1.drop cd.num_constant_args) kwargs1) :
    cache_get w.cs.cache (args2.drop cd.num_constant_args) kwargs2 =
      (some f, tr) ∧
    (_fn cd transforms postTransforms pfnFail args2 kwargs2 w).1 =
      .ok (.ran f args2 kwargs2) ∧
    (_fn cd transforms postTransforms pfnFail args2 kwargs2 w).2.cs.cache_hits =
      w.cs.cache_hits + 1 ∧
    (_fn cd transforms postTransforms pfnFail args2 kwargs2 w).2.cs.cache_misses =
      w.cs.cache_misses ∧
    (_fn cd transforms postTransforms pfnFail args2 kwargs2 w).2.tw.tracesBuilt =
      w.tw.tracesBuilt ∧
    (_fn cd transforms postTransforms pfnFail args2 kwargs2 w).2.cs.cache =
      w.cs.cache := by
  have hput' := hput
  unfold cache_put at hput'
  cases hk : _make_cache_key (args1.drop cd.num_constant_args) kwargs1 with
  | none => rw [hk] at hput'; simp at hput'
  | some k =>
    rw [hk] at hput'
    have hcache : w.cs.cache = cacheInsert cache0 k (f, tr) := by
      have h2 := congrArg Prod.snd hput'
      simpa using h2.symm
    have hget : cache_get w.cs.cache (args2.drop cd.num_constant_args) kwargs2 =
        (some f, tr) := by
      simp [cache_get, hkey, hk, hcache, cacheLookup_cacheInsert_self]
    refine ⟨hget, ?_⟩
    simp [_fn, hmode, hget]

/-- Witness for C1: a model with one constant parameter in front; the second
call's tensor has the same metadata but different contents. -/
theorem C1_dynamic_cache_hit_bypasses_tracing_witness :
    (⟨.DYNAMIC_STRIDES, 1, false, none⟩ : CompileData).cache_mode =
      .DYNAMIC_STRIDES ∧
    cache_put [] 9 (some [0])
      ([PyVal.hashable "int" 0, PyVal.tensor [2] "cpu" "f32" false [1, 2]].drop 1)
      [] =
      (true,
        (⟨⟨none, none, 0, 0, 0, 0, 0, 0, 0, 0,
            [([SubKey.tensorKey [2] "cpu" "f32" false], (9, some [0]))], 1, 0, 1⟩,
          ⟨⟨none, none⟩, 1, 1⟩, 8, 3⟩ : World).cs.cache) ∧
    _make_cache_key
        ([PyVal.hashable "int" 7, PyVal.tensor [2] "cpu" "f32" false [3, 4]].drop 1)
        [] =
      _make_cache_key
        ([PyVal.hashable "int" 0, PyVal.tensor [2] "cpu" "f32" false [1, 2]].drop 1)
        [] ∧
    (_fn ⟨.DYNAMIC_STRIDES, 1, false, none⟩ 0 0 none
        [PyVal.hashable "int" 7, PyVal.tensor [2] "cpu" "f32" false [3, 4]] []
        ⟨⟨none, none, 0, 0, 0, 0, 0, 0, 0, 0,
            [([SubKey.tensorKey [2] "cpu" "f32" false], (9, some [0]))], 1, 0, 1⟩,
          ⟨⟨none, none⟩, 1, 1⟩, 8, 3⟩).1 =
      .ok (.ran 9
        [PyVal.hashable "int" 7, PyVal.tensor [2] "cpu" "f32" false [3, 4]] []) ∧
    (_fn ⟨.DYNAMIC_STRIDES, 1, false, none⟩ 0 0 none
        [PyVal.hashable "int" 7, PyVal.tensor [2] "cpu" "f32" false [3, 4]] []
        ⟨⟨none, none, 0, 0, 0, 0, 0, 0, 0, 0,
            [([SubKey.tensorKey [2] "cpu" "f32" false], (9, some [0]))], 1, 0, 1⟩,
          ⟨⟨none, none⟩, 1, 1⟩, 8, 3⟩).2.tw.tracesBuilt = 1 := by
  refine ⟨rfl, rfl, rfl, ?_, ?_⟩
  · exact (C1_dynamic_cache_hit_bypasses_tracing ⟨.DYNAMIC_STRIDES, 1, false, none⟩
      0 0 none
      [PyVal.hashable "int" 0, PyVal.tensor [2] "cpu" "f32" false [1, 2]]
      [PyVal.hashable "int" 7, PyVal.tensor [2] "cpu" "f32" false [3, 4]]
      [] [] [] 9 (some [0])
      ⟨⟨none, none, 0, 0, 0, 0, 0, 0, 0, 0,
          [([SubKey.tensorKey [2] "cpu" "f32" false], (9, some [0]))], 1, 0, 1⟩,
        ⟨⟨none, none⟩, 1, 1⟩, 8, 3⟩ rfl rfl rfl).2.1
  · exact (C1_dynamic_cache_hit_bypasses_tracing ⟨.DYNAMIC_STRIDES, 1, false, none⟩
      0 0 none
      [PyVal.hashable "int" 0, PyVal.tensor [2] "cpu" "f32" false [1, 2]]
      [PyVal.hashable "int" 7, PyVal.tensor [2] "cpu" "f32" false [3, 4]]
      [] [] [] 9 (some [0])
      ⟨⟨none, none, 0, 0, 0, 0, 0, 0, 0, 0,
          [([SubKey.tensorKey [2] "cpu" "f32" false], (9, some [0]))], 1, 0, 1⟩,
        ⟨⟨none, none⟩, 1, 1⟩, 8, 3⟩ rfl rfl rfl).2.2.2.2.1

theorem autogradPath_hits (cd : CompileData) (args : List PyVal)
    (kwargs : List (String × PyVal)) (w : World) :
    (autogradPath cd args kwargs w).2.cs.cache_hits = w.cs.cache_hits := by
  by_cases h : cd.cache_mode = CACHE_MODES.DYNAMIC_STRIDES <;>
    simp [autogradPath, h, timeNs]

theorem autogradPath_misses (cd : CompileData) (args : List PyVal)
    (kwargs : List (String × PyVal)) (w : World) :
    (autogradPath cd args kwargs w).2.cs.cache_misses = w.cs.cache_misses := by
  by_cases h : cd.cache_mode = CACHE_MODES.DYNAMIC_STRIDES <;>
    simp [autogradPath, h, timeNs]

theorem autogradPath_cache (cd : CompileData) (args : List PyVal)
    (kwargs : List (String × PyVal)) (w : World) :
    (autogradPath cd args kwargs w).2.cs.cache =
      if cd.cache_mode = CACHE_MODES.DYNAMIC_STRIDES
      then (cache_put w.cs.cache w.nextFnId none
        (args.drop cd.num_constant_args) kwargs).2
      else w.cs.cache := by
  by_cases h : cd.cache_mode = CACHE_MODES.DYNAMIC_STRIDES <;>
    simp [autogradPath, h, timeNs]

theorem tracedPath_hits (cd : CompileData) (tf ptf : Nat) (pf : Option Nat)
    (args : List PyVal) (kwargs : List (String × PyVal)) (w : World) :
    (tracedPath cd tf ptf pf args kwargs w).2.cs.cache_hits =
      w.cs.cache_hits := by
  unfold tracedPath traceRun
  cases htrc : w.tw.env.trc <;> cases pf <;>
    by_cases htf : tf = 0 <;>
    by_cases hm : cd.cache_mode = CACHE_MODES.DYNAMIC_STRIDES <;>
    simp [htrc, htf, hm, timeNs, drawTraceIds]

theorem tracedPath_misses (cd : CompileData) (tf ptf : Nat) (pf : Option Nat)
    (args : List PyVal) (kwargs : List (String × PyVal)) (w : World) :
    (tracedPath cd tf ptf pf args kwargs w).2.cs.cache_misses =
      w.cs.cache_misses := by
  unfold tracedPath traceRun
  cases htrc : w.tw.env.trc <;> cases pf <;>
    by_cases htf : tf = 0 <;>
    by_cases hm : cd.cache_mode = CACHE_MODES.DYNAMIC_STRIDES <;>
    simp [htrc, htf, hm, timeNs, drawTraceIds]

theorem tracedPath_cache_shape (cd : CompileData) (tf ptf : Nat)
    (pf : Option Nat) (args : List PyVal) (kwargs : List (String × PyVal))
    (w : World) :
    (tracedPath cd tf ptf pf args kwargs w).2.cs.cache = w.cs.cache ∨
    ∃ k e, _make_cache_key (args.drop cd.num_constant_args) kwargs = some k ∧
      (tracedPath cd tf ptf pf args kwargs w).2.cs.cache =
        cacheInsert w.cs.cache k e := by
  unfold tracedPath traceRun
  cases htrc : w.tw.env.trc <;> cases pf <;>
    by_cases htf : tf = 0 <;>
    by_cases hm : cd.cache_mode = CACHE_MODES.DYNAMIC_STRIDES <;>
    simp [htrc, htf, hm, timeNs, drawTraceIds] <;>
    cases hk : _make_cache_key (args.drop cd.num_constant_args) kwargs <;>
    simp [cache_put, hk]
  all_goals exact Or.inr ⟨_, _, rfl⟩

theorem tracedPath_cache_of_not_dyn (cd : CompileData) (tf ptf : Nat)
    (pf : Option Nat) (args : List PyVal) (kwargs : List (String × PyVal))
    (w : World) (hm : cd.cache_mode ≠ CACHE_MODES.DYNAMIC_STRIDES) :
    (tracedPath cd tf ptf pf args kwargs w).2.cs.cache = w.cs.cache := by
  unfold tracedPath traceRun
  cases htrc : w.tw.env.trc <;> cases pf <;>
    by_cases htf : tf = 0 <;>
    simp [htrc, htf, hm, timeNs, drawTraceIds]

theorem tracedPath_inlined_spec (cd : CompileData) (tf ptf : Nat)
    (args : List PyVal) (kwargs : List (String × PyVal)) (w : World) (t : Nat)
    (htrc : w.tw.env.trc = some t) :
    ((tf = 0 → (tracedPath cd tf ptf none args kwargs w).1 =
        .ok .inlinedResult) ∧
     (tf ≠ 0 → (tracedPath cd tf ptf none args kwargs w).1 =
        .error .notImplemented)) ∧
    (tracedPath cd tf ptf none args kwargs w).2.cs.cache = w.cs.cache ∧
    (tracedPath cd tf ptf none args kwargs w).2.nextFnId = w.nextFnId ∧
    (tracedPath cd tf ptf none args kwargs w).2.tw.tracesBuilt =
      w.tw.tracesBuilt := by
  unfold tracedPath traceRun
  by_cases htf : tf = 0 <;> simp [htrc, htf, timeNs]

@[simp] theorem missPre_cs_cache (w : World) :
    (missPre w).cs.cache = w.cs.cache := rfl

@[simp] theorem missPre_cs_cache_hits (w : World) :
    (missPre w).cs.cache_hits = w.cs.cache_hits := rfl

@[simp] theorem missPre_cs_cache_misses (w : World) :
    (missPre w).cs.cache_misses = w.cs.cache_misses + 1 := rfl

@[simp] theorem missPre_cs_last_executed (w : World) :
    (missPre w).cs.last_executed = w.cs.last_executed := rfl

@[simp] theorem missPre_tw (w : World) : (missPre w).tw = w.tw := rfl

@[simp] theorem missPre_nextFnId (w : World) :
    (missPre w).nextFnId = w.nextFnId := rfl

theorem missPath_hits (cd : CompileData) (tf ptf : Nat) (pf : Option Nat)
    (args : List PyVal) (kwargs : List (String × PyVal)) (w : World) :
    (missPath cd tf ptf pf args kwargs w).2.cs.cache_hits =
      w.cs.cache_hits := by
  unfold missPath
  cases hg : !cd.disable_torch_autograd_support && anyRequiresGrad args kwargs <;>
    simp [hg, autogradPath_hits, tracedPath_hits]

theorem missPath_misses (cd : CompileData) (tf ptf : Nat) (pf : Option Nat)
    (args : List PyVal) (kwargs : List (String × PyVal)) (w : World) :
    (missPath cd tf ptf pf args kwargs w).2.cs.cache_misses =
      w.cs.cache_misses + 1 := by
  unfold missPath
  cases hg : !cd.disable_torch_autograd_support && anyRequiresGrad args kwargs <;>
    simp [hg, autogradPath_misses, tracedPath_misses]

theorem missPath_cache_shape (cd : CompileData) (tf ptf : Nat)
    (pf : Option Nat) (args : List PyVal) (kwargs : List (String × PyVal))
    (w : World) :
    (missPath cd tf ptf pf args kwargs w).2.cs.cache = w.cs.cache ∨
    ∃ k e, _make_cache_key (args.drop cd.num_constant_args) kwargs = some k ∧
      (missPath cd tf ptf pf args kwargs w).2.cs.cache =
        cacheInsert w.cs.cache k e := by
  unfold missPath
  cases hg : !cd.disable_torch_autograd_support && anyRequiresGrad args kwargs
  · simp only [Bool.false_eq_true, if_false]
    have h := tracedPath_cache_shape cd tf ptf pf args kwargs (missPre w)
    simpa using h
  · simp only [eq_self_iff_true, if_true]
    have h := autogradPath_cache cd args kwargs (missPre w)
    by_cases hm : cd.cache_mode = CACHE_MODES.DYNAMIC_STRIDES
    · rw [if_pos hm] at h
      cases hk : _make_cache_key (args.drop cd.num_constant_args) kwargs with
      | none =>
        refine Or.inl ?_
        simpa [cache_put, hk] using h
      | some k =>
        refine Or.inr ⟨k, (w.nextFnId, none), rfl, ?_⟩
        simpa [cache_put, hk] using h
    · refine Or.inl ?_
      simpa [hm] using h

theorem missPath_cache_of_not_dyn (cd : CompileData) (tf ptf : Nat)
    (pf : Option Nat) (args : List PyVal) (kwargs : List (String × PyVal))
    (w : World) (hm : cd.cache_mode ≠ CACHE_MODES.DYNAMIC_STRIDES) :
    (missPath cd tf ptf pf args kwargs w).2.cs.cache = w.cs.cache := by
  unfold missPath
  cases hg : !cd.disable_torch_autograd_support && anyRequiresGrad args kwargs <;>
    simp [hg, tracedPath_cache_of_not_dyn _ _ _ _ _ _ _ hm,
      autogradPath_cache, hm]

/-- C5: in `DYNAMIC_STRIDES` mode, cache lookups depend only on the
positional arguments after the implicit constant-parameter prefix is
skipped (with kwargs passed whole): two calls whose args agree after the
skip produce identical hit/miss counter updates; and every cache insertion
— the autograd-path store and the normal-path store alike — stores under
the fingerprint of the prefix-stripped args and the full kwargs. -/
theorem C5_dynamic_lookup_and_insert_use_stripped_args
    (cd : CompileData) (tf ptf : Nat) (pf : Option Nat)
    (args args' : List PyVal) (kwargs : List (String × PyVal)) (w : World)
    (hmode : cd.cache_mode = .DYNAMIC_STRIDES)
    (hdrop : args.drop cd.num_constant_args = args'.drop cd.num_constant_args) :
    ((_fn cd tf ptf pf args kwargs w).2.cs.cache_hits =
       (_fn cd tf ptf pf args' kwargs w).2.cs.cache_hits ∧
     (_fn cd tf ptf pf args kwargs w).2.cs.cache_misses =
       (_fn cd tf ptf pf args' kwargs w).2.cs.cache_misses) ∧
    ((_fn cd tf ptf pf args kwargs w).2.cs.cache = w.cs.cache ∨
     ∃ k e, _make_cache_key (args.drop cd.num_constant_args) kwargs = some k ∧
       (_fn cd tf ptf pf args kwargs w).2.cs.cache =
         cacheInsert w.cs.cache k e) := by
  cases hres : (cache_get w.cs.cache (args.drop cd.num_constant_args) kwargs).1 with
  | some c =>
    have hres' : (cache_get w.cs.cache (args'.drop cd.num_constant_args) kwargs).1 =
        some c := by rw [← hdrop]; exact hres
    refine ⟨⟨?_, ?_⟩, Or.inl ?_⟩ <;> simp [_fn, hmode, hres, hres']
  | none =>
    have hres' : (cache_get w.cs.cache (args'.drop cd.num_constant_args) kwargs).1 =
        none := by rw [← hdrop]; exact hres
    refine ⟨⟨?_, ?_⟩, ?_⟩
    · simp [_fn, hmode, hres, hres', missPath_hits]
    · simp [_fn, hmode, hres, hres', missPath_misses]
    · have h := missPath_cache_shape cd tf ptf pf args kwargs (startCall w)
      simp only [startCall_cs_cache] at h
      simpa [_fn, hmode, hres] using h

/-- Witness for C5: two calls differing only in the constant-parameter
prefix, on an empty cache (both miss; the store uses the stripped args). -/
theorem C5_dynamic_lookup_and_insert_use_stripped_args_witness :
    (⟨.DYNAMIC_STRIDES, 1, true, none⟩ : CompileData).cache_mode =
      .DYNAMIC_STRIDES ∧
    [PyVal.hashable "int" 0, PyVal.str "v"].drop 1 =
      [PyVal.hashable "int" 7, PyVal.str "v"].drop 1 ∧
    ((_fn ⟨.DYNAMIC_STRIDES, 1, true, none⟩ 0 0 none
        [PyVal.hashable "int" 0, PyVal.str "v"] []
        ⟨⟨none, none, 0, 0, 0, 0, 0, 0, 0, 0, [], 0, 0, 0⟩,
          ⟨⟨none, none⟩, 0, 0⟩, 0, 0⟩).2.cs.cache_hits =
      (_fn ⟨.DYNAMIC_STRIDES, 1, true, none⟩ 0 0 none
        [PyVal.hashable "int" 7, PyVal.str "v"] []
        ⟨⟨none, none, 0, 0, 0, 0, 0, 0, 0, 0, [], 0, 0, 0⟩,
          ⟨⟨none, none⟩, 0, 0⟩, 0, 0⟩).2.cs.cache_hits) ∧
    ((_fn ⟨.DYNAMIC_STRIDES, 1, true, none⟩ 0 0 none
        [PyVal.hashable "int" 0, PyVal.str "v"] []
        ⟨⟨none, none, 0, 0, 0, 0, 0, 0, 0, 0, [], 0, 0, 0⟩,
          ⟨⟨none, none⟩, 0, 0⟩, 0, 0⟩).2.cs.cache = [] ∨
      ∃ k e, _make_cache_key ([PyVal.hashable "int" 0, PyVal.str "v"].drop 1) [] =
          some k ∧
        (_fn ⟨.DYNAMIC_STRIDES, 1, true, none⟩ 0 0 none
          [PyVal.hashable "int" 0, PyVal.str "v"] []
          ⟨⟨none, none, 0, 0, 0, 0, 0, 0, 0, 0, [], 0, 0, 0⟩,
            ⟨⟨none, none⟩, 0, 0⟩, 0, 0⟩).2.cs.cache = cacheInsert [] k e) := by
  have h := C5_dynamic_lookup_and_insert_use_stripped_args
    ⟨.DYNAMIC_STRIDES, 1, true, none⟩ 0 0 none
    [PyVal.hashable "int" 0, PyVal.str "v"]
    [PyVal.hashable "int" 7, PyVal.str "v"] []
    ⟨⟨none, none, 0, 0, 0, 0, 0, 0, 0, 0, [], 0, 0, 0⟩,
      ⟨⟨none, none⟩, 0, 0⟩, 0, 0⟩ rfl rfl
  exact ⟨rfl, rfl, h.1.1, h.2⟩

/-- C10: in `FIXED` and `ALWAYS_TRACE` modes a call never touches the
stats object's cache dict (`cache_put` runs only under `DYNAMIC_STRIDES`),
so a cache that starts empty stays empty and the single `FIXED`-mode
specialization lives solely in `cs.last_executed`. -/
theorem C10_cache_untouched_outside_dynamic_mode
    (cd : CompileData) (tf ptf : Nat) (pf : Option Nat)
    (args : List PyVal) (kwargs : List (String × PyVal)) (w : World)
    (hmode : cd.cache_mode = .FIXED ∨ cd.cache_mode = .ALWAYS_TRACE) :
    (_fn cd tf ptf pf args kwargs w).2.cs.cache = w.cs.cache ∧
    (w.cs.cache = [] → (_fn cd tf ptf pf args kwargs w).2.cs.cache = []) := by
  have hne : cd.cache_mode ≠ CACHE_MODES.DYNAMIC_STRIDES := by
    rcases hmode with h | h <;> simp [h]
  have hmiss := fun w' => missPath_cache_of_not_dyn cd tf ptf pf args kwargs w' hne
  have hmain : (_fn cd tf ptf pf args kwargs w).2.cs.cache = w.cs.cache := by
    rcases hmode with h | h
    · cases hle : w.cs.last_executed with
      | some f => simp [_fn, h, hle]
      | none => simp [_fn, h, hle, hmiss]
    · simp [_fn, h, hmiss]
  exact ⟨hmain, fun he => by rw [hmain, he]⟩

/-- Witness for C10: an `ALWAYS_TRACE` call on an empty cache. -/
theorem C10_cache_untouched_outside_dynamic_mode_witness :
    ((⟨.ALWAYS_TRACE, 0, true, none⟩ : CompileData).cache_mode = .FIXED ∨
      (⟨.ALWAYS_TRACE, 0, true, none⟩ : CompileData).cache_mode = .ALWAYS_TRACE) ∧
    (_fn ⟨.ALWAYS_TRACE, 0, true, none⟩ 0 0 none [.str "x"] []
        ⟨⟨none, none, 0, 0, 0, 0, 0, 0, 0, 0, [], 0, 0, 0⟩,
          ⟨⟨none, none⟩, 0, 0⟩, 0, 0⟩).2.cs.cache = [] :=
  ⟨Or.inr rfl,
   (C10_cache_untouched_outside_dynamic_mode ⟨.ALWAYS_TRACE, 0, true, none⟩
      0 0 none [.str "x"] []
      ⟨⟨none, none, 0, 0, 0, 0, 0, 0, 0, 0, [], 0, 0, 0⟩,
        ⟨⟨none, none⟩, 0, 0⟩, 0, 0⟩ (Or.inr rfl)).2 rfl⟩

/-- Counterexample to C7 as stated: a call made while a trace context is
active (`trc = some 0`), in `FIXED` mode with a recorded executable and one
registered transform.  The dispatcher runs the stored executable — it does
not return the inlined result, and it does not raise `NotImplementedError`
despite the registered transform. -/
theorem C7_inlined_call_counterexample :
    (_fn ⟨.FIXED, 0, false, none⟩ 1 0 none [] []
        ⟨⟨some 5, none, 0, 0, 0, 0, 0, 0, 0, 0, [], 0, 0, 0⟩,
          ⟨⟨none, some 0⟩, 1, 0⟩, 0, 0⟩).1 = .ok (.ran 5 [] []) ∧
    (_fn ⟨.FIXED, 0, false, none⟩ 1 0 none [] []
        ⟨⟨some 5, none, 0, 0, 0, 0, 0, 0, 0, 0, [], 0, 0, 0⟩,
          ⟨⟨none, some 0⟩, 1, 0⟩, 0, 0⟩).1 ≠ .ok .inlinedResult ∧
    (_fn ⟨.FIXED, 0, false, none⟩ 1 0 none [] []
        ⟨⟨some 5, none, 0, 0, 0, 0, 0, 0, 0, 0, [], 0, 0, 0⟩,
          ⟨⟨none, some 0⟩, 1, 0⟩, 0, 0⟩).1 ≠ .error .notImplemented := by
  have he : (_fn ⟨.FIXED, 0, false, none⟩ 1 0 none [] []
      ⟨⟨some 5, none, 0, 0, 0, 0, 0, 0, 0, 0, [], 0, 0, 0⟩,
        ⟨⟨none, some 0⟩, 1, 0⟩, 0, 0⟩).1 = .ok (.ran 5 [] []) := rfl
  refine ⟨he, ?_, ?_⟩ <;> rw [he] <;> simp

/-- C7 (amended): a call made while a trace context is active **that
reaches trace acquisition** — no `FIXED`-mode stored executable, no
`DYNAMIC_STRIDES` cache hit, no autograd dispatch — and whose traced
invocation completes normally returns the (proxied) inlined result
immediately, with no cache insertion and no executable construction and no
new trace; with registered transforms it instead fails with
`NotImplementedError` (and still performs no cache insertion). -/
theorem C7_inlined_call_amended
    (cd : CompileData) (tf ptf : Nat) (args : List PyVal)
    (kwargs : List (String × PyVal)) (w : World) (t : Nat)
    (htrc : w.tw.env.trc = some t)
    (hfixed : cd.cache_mode = .FIXED → w.cs.last_executed = none)
    (hdyn : cd.cache_mode = .DYNAMIC_STRIDES →
      (cache_get w.cs.cache (args.drop cd.num_constant_args) kwargs).1 = none)
    (hgrad : (!cd.disable_torch_autograd_support &&
      anyRequiresGrad args kwargs) = false) :
    ((tf = 0 → (_fn cd tf ptf none args kwargs w).1 = .ok .inlinedResult) ∧
     (tf ≠ 0 → (_fn cd tf ptf none args kwargs w).1 = .error .notImplemented)) ∧
    (_fn cd tf ptf none args kwargs w).2.cs.cache = w.cs.cache ∧
    (_fn cd tf ptf none args kwargs w).2.nextFnId = w.nextFnId ∧
    (_fn cd tf ptf none args kwargs w).2.tw.tracesBuilt = w.tw.tracesBuilt := by
  have hreach : _fn cd tf ptf none args kwargs w =
      tracedPath cd tf ptf none args kwargs (missPre (startCall w)) := by
    cases hcm : cd.cache_mode with
    | FIXED =>
      have hle := hfixed hcm
      simp [_fn, missPath, hcm, hle, hgrad]
    | ALWAYS_TRACE => simp [_fn, missPath, hcm, hgrad]
    | DYNAMIC_STRIDES =>
      have hd := hdyn hcm
      simp [_fn, missPath, hcm, hd, hgrad]
  rw [hreach]
  have hspec := tracedPath_inlined_spec cd tf ptf args kwargs
    (missPre (startCall w)) t (by simpa using htrc)
  simpa using hspec

/-- Witness for the amended C7: an `ALWAYS_TRACE`-mode call with autograd
support disabled, invoked while trace context `3` is active, with no
transforms. -/
theorem C7_inlined_call_amended_witness :
    (⟨⟨none, none, 0, 0, 0, 0, 0, 0, 0, 0, [], 0, 0, 0⟩,
        ⟨⟨none, some 3⟩, 4, 2⟩, 0, 6⟩ : World).tw.env.trc = some 3 ∧
    ((⟨.ALWAYS_TRACE, 0, true, none⟩ : CompileData).cache_mode = .FIXED →
      (⟨⟨none, none, 0, 0, 0, 0, 0, 0, 0, 0, [], 0, 0, 0⟩,
          ⟨⟨none, some 3⟩, 4, 2⟩, 0, 6⟩ : World).cs.last_executed = none) ∧
    ((!(⟨.ALWAYS_TRACE, 0, true, none⟩ : CompileData).disable_torch_autograd_support &&
      anyRequiresGrad [.str "x"] []) = false) ∧
    (_fn ⟨.ALWAYS_TRACE, 0, true, none⟩ 0 0 none [.str "x"] []
        ⟨⟨none, none, 0, 0, 0, 0, 0, 0, 0, 0, [], 0, 0, 0⟩,
          ⟨⟨none, some 3⟩, 4, 2⟩, 0, 6⟩).1 = .ok .inlinedResult ∧
    (_fn ⟨.ALWAYS_TRACE, 0, true, none⟩ 0 0 none [.str "x"] []
        ⟨⟨none, none, 0, 0, 0, 0, 0, 0, 0, 0, [], 0, 0, 0⟩,
          ⟨⟨none, some 3⟩, 4, 2⟩, 0, 6⟩).2.cs.cache = [] ∧
    (_fn ⟨.ALWAYS_TRACE, 0, true, none⟩ 0 0 none [.str "x"] []
        ⟨⟨none, none, 0, 0, 0, 0, 0, 0, 0, 0, [], 0, 0, 0⟩,
          ⟨⟨none, some 3⟩, 4, 2⟩, 0, 6⟩).2.tw.tracesBuilt = 2 := by
  have h := C7_inlined_call_amended ⟨.ALWAYS_TRACE, 0, true, none⟩ 0 0
    [.str "x"] []
    ⟨⟨none, none, 0, 0, 0, 0, 0, 0, 0, 0, [], 0, 0, 0⟩,
      ⟨⟨none, some 3⟩, 4, 2⟩, 0, 6⟩ 3 rfl (fun hc => nomatch hc)
    (fun hc => nomatch hc) rfl
  refine ⟨rfl, ?_, rfl, h.1.1 rfl, h.2.1, h.2.2.2⟩
  intro hc
  exact absurd hc (by decide)

/-!
## Module adapter write-back
-/

theorem lookupAttr_setAttrList_self (attrs : List (String × Obj))
    (name : String) (o : Obj) :
    lookupAttr (setAttrList attrs name o) name = some o := by
  induction attrs with
  | nil => simp [setAttrList, lookupAttr]
  | cons p rest ih =>
    obtain ⟨n, o'⟩ := p
    by_cases h : n = name
    · simp [setAttrList, lookupAttr, h]
    · simp [setAttrList, lookupAttr, h, ih]

theorem lookupAttr_setAttrList_ne (attrs : List (String × Obj))
    (name q : String) (o : Obj) (h : q ≠ name) :
    lookupAttr (setAttrList attrs name o) q = lookupAttr attrs q := by
  induction attrs with
  | nil => simp [setAttrList, lookupAttr, Ne.symm h]
  | cons p rest ih =>
    obtain ⟨n, o'⟩ := p
    by_cases hn : n = name
    · subst hn
      have hnq : ¬ n = q := fun he => h he.symm
      simp [setAttrList, lookupAttr, hnq]
    · by_cases hq : n = q <;> simp [setAttrList, lookupAttr, hn, hq, h, ih]

theorem getDotted_setDotted_self :
    ∀ (path : List String) (m m' : Obj) (v : PyVal),
      setDotted m path v = some m' → getDotted m' path = some (.leaf v) := by
  intro path
  induction path with
  | nil => intro m m' v h; simp [setDotted] at h
  | cons p rest ih =>
    intro m m' v h
    cases m with
    | leaf _ => simp [setDotted] at h
    | node attrs =>
      cases rest with
      | nil =>
        simp only [setDotted, Option.some.injEq] at h
        subst h
        simp [getDotted, lookupAttr_setAttrList_self]
      | cons q rest' =>
        simp only [setDotted] at h
        split at h
        next sub hl =>
          split at h
          next sub' hs =>
            simp only [Option.some.injEq] at h
            subst h
            simp [getDotted, lookupAttr_setAttrList_self, ih sub sub' v hs]
          next hs => simp at h
        next hl => simp at h

theorem getDotted_setDotted_ne :
    ∀ (pathW path : List String) (m m' : Obj) (v : PyVal),
      setDotted m pathW v = some m' →
      ¬ path <+: pathW → ¬ pathW <+: path →
      getDotted m' path = getDotted m path := by
  intro pathW
  induction pathW with
  | nil => intro path m m' v h; simp [setDotted] at h
  | cons p' rest' ih =>
    intro path m m' v hset hp1 hp2
    cases path with
    | nil => exact absurd List.nil_prefix hp1
    | cons p rest =>
      cases m with
      | leaf _ => simp [setDotted] at hset
      | node attrs =>
        by_cases hpp : p = p'
        · subst hpp
          have h1 : ¬ rest <+: rest' :=
            fun hr => hp1 (List.cons_prefix_cons.mpr ⟨rfl, hr⟩)
          have h2 : ¬ rest' <+: rest :=
            fun hr => hp2 (List.cons_prefix_cons.mpr ⟨rfl, hr⟩)
          cases rest' with
          | nil => exact absurd List.nil_prefix h2
          | cons q' rr' =>
            simp only [setDotted] at hset
            split at hset
            next sub hl =>
              split at hset
              next sub' hs =>
                simp only [Option.some.injEq] at hset
                subst hset
                cases rest with
                | nil => exact absurd List.nil_prefix h1
                | cons q rr =>
                  simp only [getDotted, lookupAttr_setAttrList_self, hl]
                  exact ih (q :: rr) sub sub' v hs h1 h2
              next hs => simp at hset
            next hl => simp at hset
        · cases rest' with
          | nil =>
            simp only [setDotted, Option.some.injEq] at hset
            subst hset
            simp [getDotted, lookupAttr_setAttrList_ne _ _ _ _ hpp]
          | cons q' rr' =>
            simp only [setDotted] at hset
            split at hset
            next sub hl =>
              split at hset
              next sub' hs =>
                simp only [Option.some.injEq] at hset
                subst hset
                simp [getDotted, lookupAttr_setAttrList_ne _ _ _ _ hpp]
              next hs => simp at hset
            next hl => simp at hset

theorem applyReturns_length :
    ∀ (ts : List ((String × PyVal) × Nat)) (m : Obj) (vals : List PyVal)
      (m' : Obj) (vals' : List PyVal),
      applyReturns m vals ts = .ok (m', vals') → vals'.length = vals.length := by
  intro ts
  induction ts with
  | nil =>
    intro m vals m' vals' h
    simp only [applyReturns, Except.ok.injEq, Prod.mk.injEq] at h
    rw [← h.2]
  | cons t rest ih =>
    intro m vals m' vals' h
    obtain ⟨⟨k, v⟩, idx⟩ := t
    simp only [applyReturns] at h
    split at h
    next => simp at h
    next m1 hsd =>
      split at h
      next hlt => simpa using ih m1 (vals.set idx v) m' vals' h
      next => simp at h

theorem applyReturns_get_preserved :
    ∀ (ts : List ((String × PyVal) × Nat)) (m : Obj) (vals : List PyVal)
      (m' : Obj) (vals' : List PyVal) (i : Nat),
      applyReturns m vals ts = .ok (m', vals') →
      i ∉ ts.map (fun t => t.2) →
      vals'[i]? = vals[i]? := by
  intro ts
  induction ts with
  | nil =>
    intro m vals m' vals' i h _
    simp only [applyReturns, Except.ok.injEq, Prod.mk.injEq] at h
    rw [← h.2]
  | cons t rest ih =>
    intro m vals m' vals' i h hmem
    obtain ⟨⟨k, v⟩, idx⟩ := t
    simp only [List.map_cons, List.mem_cons, not_or] at hmem
    simp only [applyReturns] at h
    split at h
    next => simp at h
    next m1 hsd =>
      split at h
      next hlt =>
        rw [ih m1 (vals.set idx v) m' vals' i h hmem.2]
        exact List.getElem?_set_ne (Ne.symm hmem.1)
      next => simp at h

theorem applyReturns_getDotted_preserved :
    ∀ (ts : List ((String × PyVal) × Nat)) (m : Obj) (vals : List PyVal)
      (m' : Obj) (vals' : List PyVal) (path : List String),
      applyReturns m vals ts = .ok (m', vals') →
      (∀ t ∈ ts, ¬ path <+: (pathOf t.1.1) ∧
        ¬ (pathOf t.1.1) <+: path) →
      getDotted m' path = getDotted m path := by
  intro ts
  induction ts with
  | nil =>
    intro m vals m' vals' path h _
    simp only [applyReturns, Except.ok.injEq, Prod.mk.injEq] at h
    rw [← h.1]
  | cons t rest ih =>
    intro m vals m' vals' path h hni
    obtain ⟨⟨k, v⟩, idx⟩ := t
    simp only [applyReturns] at h
    split at h
    next => simp at h
    next m1 hsd =>
      split at h
      next hlt =>
        have hhd := hni ((k, v), idx) (List.mem_cons_self _ _)
        rw [ih m1 (vals.set idx v) m' vals' path h
          (fun t' ht' => hni t' (List.mem_cons_of_mem _ ht'))]
        exact getDotted_setDotted_ne _ path m m1 v hsd hhd.1 hhd.2
      next => simp at h

/-- The combined effect of the write-back loop when it succeeds: under
distinct parameter indices and pairwise non-interfering dotted paths, every
written (name, value, index) triple is observable in the final model and
the final implicit-parameter values. -/
theorem applyReturns_spec :
    ∀ (ts : List ((String × PyVal) × Nat)) (m : Obj) (vals : List PyVal)
      (m' : Obj) (vals' : List PyVal),
      applyReturns m vals ts = .ok (m', vals') →
      (ts.map (fun t => t.2)).Nodup →
      ts.Pairwise (fun t t' => ¬ (pathOf t.1.1) <+: (pathOf t'.1.1) ∧
        ¬ (pathOf t'.1.1) <+: (pathOf t.1.1)) →
      ∀ t ∈ ts, getDotted m' (pathOf t.1.1) = some (.leaf t.1.2) ∧
        vals'[t.2]? = some t.1.2 := by
  intro ts
  induction ts with
  | nil => intro m vals m' vals' _ _ _ t ht; cases ht
  | cons t0 rest ih =>
    intro m vals m' vals' h hnd hpp t ht
    obtain ⟨⟨k0, v0⟩, idx0⟩ := t0
    simp only [List.map_cons, List.nodup_cons] at hnd
    rw [List.pairwise_cons] at hpp
    simp only [applyReturns] at h
    split at h
    next => simp at h
    next m1 hsd =>
      split at h
      next hlt =>
        rcases List.mem_cons.mp ht with rfl | hmem
        · constructor
          · rw [applyReturns_getDotted_preserved rest m1 (vals.set idx0 v0)
              m' vals' _ h (fun t' ht' => hpp.1 t' ht')]
            exact getDotted_setDotted_self _ m m1 v0 hsd
          · rw [applyReturns_get_preserved rest m1 (vals.set idx0 v0)
              m' vals' idx0 h hnd.1]
            exact List.getElem?_set_eq_of_lt v0 hlt
        · exact ih m1 (vals.set idx0 v0) m' vals' h hnd.2 hpp.2 t hmem
      next => simp at h

/-- C9: with a non-empty declared extra-return-name list, a call whose
number of additional returned values differs from the number of declared
names fails fatally with the mismatch error; when the call succeeds, the
primary result is returned and each extra return value has been written
both to the owning model's dotted attribute path and into the adapter's
implicit-parameter slot at the corresponding index, so the next call's
argument prefix (`tomAllArgs`) carries the updated value. -/
theorem C9_module_extra_return_writeback
    (tom : TOM) (r : PyVal) (rest : List PyVal)
    (hne : tom.additional_return_names ≠ []) :
    (tom.additional_return_names.length ≠ rest.length →
      tomCall tom (.seq (r :: rest)) = .error .mismatch) ∧
    (∀ r' tom', tomCall tom (.seq (r :: rest)) = .ok (r', tom') →
      r' = r ∧
      ((((tom.additional_return_names.zip rest).zip
          tom.additional_return_param_idxes).map (fun t => t.2)).Nodup →
       (((tom.additional_return_names.zip rest).zip
          tom.additional_return_param_idxes).Pairwise
          (fun t t' => ¬ (pathOf t.1.1) <+: (pathOf t'.1.1) ∧
            ¬ (pathOf t'.1.1) <+: (pathOf t.1.1))) →
       ∀ t ∈ (tom.additional_return_names.zip rest).zip
           tom.additional_return_param_idxes,
         getDotted tom'.model (pathOf t.1.1) = some (.leaf t.1.2) ∧
         tom'.additional_param_values[t.2]? = some t.1.2 ∧
         ∀ args : List PyVal, (tomAllArgs tom' args)[t.2]? = some t.1.2)) := by
  obtain ⟨model0, vals0, names0, idxes0⟩ := tom
  cases names0 with
  | nil => exact absurd rfl hne
  | cons n0 ns0 =>
    constructor
    · intro hlen
      simp only [tomCall]
      rw [if_neg hlen]
    · intro r' tom' hok
      simp only [tomCall] at hok
      by_cases hlen : (n0 :: ns0).length = rest.length
      · rw [if_pos hlen] at hok
        cases happ : applyReturns model0 vals0 (((n0 :: ns0).zip rest).zip idxes0) with
        | error e => rw [happ] at hok; simp at hok
        | ok p =>
          obtain ⟨m', vals'⟩ := p
          rw [happ] at hok
          simp only [Except.ok.injEq, Prod.mk.injEq] at hok
          obtain ⟨hr, htom⟩ := hok
          subst htom
          refine ⟨hr.symm, fun hnd hpp t ht => ?_⟩
          have hspec := applyReturns_spec _ model0 vals0 m' vals' happ hnd hpp t ht
          refine ⟨hspec.1, hspec.2, fun args => ?_⟩
          have hlt : t.2 < vals'.length := by
            rcases List.getElem?_eq_some.mp hspec.2 with ⟨hh, _⟩
            exact hh
          simp only [tomAllArgs]
          rw [List.getElem?_append_left hlt]
          exact hspec.2
      · rw [if_neg hlen] at hok
        simp at hok

/-- Witness for C9: a module with a direct parameter `w` and a nested
parameter `sub.b`; the two-name/one-extra-value call fails with the
mismatch error, and the matching call writes both values back. -/
theorem C9_module_extra_return_writeback_witness :
    ((⟨.node [("w", .leaf (.hashable "int" 0)), ("sub", .node [("b", .leaf (.hashable "int" 1))])],
        [.hashable "int" 0, .hashable "int" 1], ["w", "sub.b"], [0, 1]⟩ :
      TOM).additional_return_names ≠ []) ∧
    tomCall
      ⟨.node [("w", .leaf (.hashable "int" 0)), ("sub", .node [("b", .leaf (.hashable "int" 1))])],
        [.hashable "int" 0, .hashable "int" 1], ["w", "sub.b"], [0, 1]⟩
      (.seq [.hashable "int" 5, .hashable "int" 10]) = .error .mismatch ∧
    tomCall
      ⟨.node [("w", .leaf (.hashable "int" 0)), ("sub", .node [("b", .leaf (.hashable "int" 1))])],
        [.hashable "int" 0, .hashable "int" 1], ["w", "sub.b"], [0, 1]⟩
      (.seq [.hashable "int" 5, .hashable "int" 10, .hashable "int" 20]) =
      .ok (.hashable "int" 5,
        ⟨.node [("w", .leaf (.hashable "int" 10)), ("sub", .node [("b", .leaf (.hashable "int" 20))])],
          [.hashable "int" 10, .hashable "int" 20], ["w", "sub.b"], [0, 1]⟩) ∧
    getDotted
      (.node [("w", .leaf (.hashable "int" 10)), ("sub", .node [("b", .leaf (.hashable "int" 20))])])
      (pathOf "w") = some (.leaf (.hashable "int" 10)) ∧
    getDotted
      (.node [("w", .leaf (.hashable "int" 10)), ("sub", .node [("b", .leaf (.hashable "int" 20))])])
      (pathOf "sub.b") = some (.leaf (.hashable "int" 20)) ∧
    ([PyVal.hashable "int" 10, PyVal.hashable "int" 20][0]? = some (.hashable "int" 10)) ∧
    ([PyVal.hashable "int" 10, PyVal.hashable "int" 20][1]? = some (.hashable "int" 20)) ∧
    (tomAllArgs
      ⟨.node [("w", .leaf (.hashable "int" 10)), ("sub", .node [("b", .leaf (.hashable "int" 20))])],
        [.hashable "int" 10, .hashable "int" 20], ["w", "sub.b"], [0, 1]⟩
      [.str "input"])[1]? = some (.hashable "int" 20) := by
  have h1 : pathOf "w" = ["w"] := by decide
  have h2 : pathOf "sub.b" = ["sub", "b"] := by decide
  have hth := C9_module_extra_return_writeback
    ⟨.node [("w", .leaf (.hashable "int" 0)), ("sub", .node [("b", .leaf (.hashable "int" 1))])],
      [.hashable "int" 0, .hashable "int" 1], ["w", "sub.b"], [0, 1]⟩
    (.hashable "int" 5) [.hashable "int" 10, .hashable "int" 20] (by simp)
  have hok : tomCall
      ⟨.node [("w", .leaf (.hashable "int" 0)), ("sub", .node [("b", .leaf (.hashable "int" 1))])],
        [.hashable "int" 0, .hashable "int" 1], ["w", "sub.b"], [0, 1]⟩
      (.seq [.hashable "int" 5, .hashable "int" 10, .hashable "int" 20]) =
      .ok (.hashable "int" 5,
        ⟨.node [("w", .leaf (.hashable "int" 10)), ("sub", .node [("b", .leaf (.hashable "int" 20))])],
          [.hashable "int" 10, .hashable "int" 20], ["w", "sub.b"], [0, 1]⟩) := by
    simp [tomCall, applyReturns, h1, h2, setDotted, lookupAttr, setAttrList,
      List.set]
  have hmm := C9_module_extra_return_writeback
    ⟨.node [("w", .leaf (.hashable "int" 0)), ("sub", .node [("b", .leaf (.hashable "int" 1))])],
      [.hashable "int" 0, .hashable "int" 1], ["w", "sub.b"], [0, 1]⟩
    (.hashable "int" 5) [.hashable "int" 10] (by simp)
  have hspec := (hth.2 _ _ hok).2 (by decide) (by decide)
  have hw := hspec (("w", .hashable "int" 10), 0) (by simp)
  have hsb := hspec (("sub.b", .hashable "int" 20), 1) (by simp)
  exact ⟨by simp, hmm.1 (by decide), hok, hw.1, hsb.1, hw.2.1, hsb.2.1,
    hsb.2.2 [.str "input"]⟩

end ThunderCommon
